import Mathlib

/-!
Verification of the dynamic texture atlas
(`Graphics/GraphicsTools/src/DynamicTextureAtlas.cpp`).

The atlas state (`AtlasState`) and its operations (`atlasAllocate`,
`atlasFree`, `getTexture`, `atlasConstruct`) are shallow embeddings of
`DynamicTextureAtlasImpl`.  The per-slice region manager
(`DynamicAtlasManager`, which is not part of the sources here) is kept
abstract as a `RegionMgr` capability, following the specification's
description of it as a black box with `Allocate(cellsW, cellsH) ->
Region | empty` and `Free(Region)`.  Machine integers are modelled as
`Nat`/`Int`; the counters are `Int` (`std::atomic<Int64>` /
`std::atomic<Int32>` in the source), which cannot overflow at the areas
involved.  Undefined behaviour (out-of-range `std::vector` indexing, a
null `SliceManager` pointer dereference) is made explicit through the
`FreeResult.undefinedAccess` constructor.
-/

namespace DynTexAtlas

/-- Modelled from the spec: `DynamicAtlasManager::Region` (the region
manager's packed-rectangle descriptor, not among the sources) is an
opaque rectangle in alignment-grid cell units with an is-empty
predicate; allocation failure is signalled by an empty region. -/
structure Region where
  x : Nat
  y : Nat
  width : Nat
  height : Nat
  deriving DecidableEq, Repr

/-- Modelled from the spec: a region is degenerate (treated as an
allocation failure by `DynamicTextureAtlasImpl::Allocate`) when either
cell dimension is zero. -/
def Region.IsEmpty (r : Region) : Bool :=
  r.width == 0 || r.height == 0

/-- Modelled from the spec: the per-slice region manager capability
(`DynamicAtlasManager`, not among the sources): `Allocate(cellsW,
cellsH) -> Region | empty` and `Free(Region)`; `init` is the
constructor taking the grid dimensions in cell units. -/
structure RegionMgr (σ : Type) where
  init : Nat → Nat → σ
  alloc : σ → Nat → Nat → Region × σ
  free : σ → Region → σ

/-- Modelled from the spec: a successful (non-empty) region returned by
the region manager has exactly the requested cell dimensions. -/
def RegionMgr.SizeFaithful {σ : Type} (M : RegionMgr σ) : Prop :=
  ∀ st w h, ((M.alloc st w h).1.IsEmpty = false) →
    (M.alloc st w h).1.width = w ∧ (M.alloc st w h).1.height = h

/-- The structural (lock-guarded) part of `DynamicTextureAtlasImpl`:
`m_Slices` (a vector of owning pointers to slice managers, `none`
standing for a null `unique_ptr`), `m_AlignmentToSlice` (the alignment
bucket map, as an association list), and `m_NextUnusedSlice`. -/
structure SliceTable (σ : Type) where
  slices : List (Option σ)
  buckets : List (Nat × List Nat)
  nextUnused : Nat
  deriving DecidableEq, Repr

/-- The full mutable state of `DynamicTextureAtlasImpl`: the slice
table, the three atomic usage counters, the version counter, the
descriptor's current array size and the stored texture handle
(`m_pTexture`, abstracted as an optional handle id). -/
structure AtlasState (σ : Type) where
  table : SliceTable σ
  allocatedArea : Int
  usedArea : Int
  allocationCount : Int
  version : Nat
  descArraySize : Nat
  texture : Option Nat
  deriving DecidableEq, Repr

/-- The immutable configuration consulted by `Allocate`:
`m_Desc.Width`, `m_Desc.Height`, `m_MinAlignment`, `m_ExtraSliceCount`
and `m_MaxSliceCount`. -/
structure AtlasConfig where
  width : Nat
  height : Nat
  minAlignment : Nat
  extraSliceCount : Nat
  maxSliceCount : Nat
  deriving DecidableEq, Repr

/-- Data of `TextureAtlasSuballocationImpl`: the data stored by a suballocation
handle (`m_Subregion`, `m_Slice`, `m_Alignment`, `m_Size`). -/
structure Suballoc where
  region : Region
  slice : Nat
  alignment : Nat
  sizeW : Nat
  sizeH : Nat
  deriving DecidableEq, Repr

/-- Reading `l[i]` from a `std::vector<std::unique_ptr<SliceManager>>`:
in-range gives the stored pointer, out of range is indistinguishable
here from a null pointer (both lead to `FreeResult.undefinedAccess`
where dereferenced). -/
def sliceAt {σ : Type} : List (Option σ) → Nat → Option σ
  | [], _ => none
  | x :: _, 0 => x
  | _ :: rest, i + 1 => sliceAt rest i

/-- Writing `l[i] = v`; out-of-range writes do not occur on the code
paths modelled (slice creation grows the vector first). -/
def setAt {σ : Type} : List (Option σ) → Nat → Option σ → List (Option σ)
  | [], _, _ => []
  | _ :: rest, 0, v => v :: rest
  | x :: rest, i + 1, v => x :: setAt rest i v

/-- Lookup `m_AlignmentToSlice.find(a)`: first entry with the given key. -/
def bucketGet : List (Nat × List Nat) → Nat → Option (List Nat)
  | [], _ => none
  | p :: rest, a => if p.1 = a then some p.2 else bucketGet rest a

/-- Storing a value under a key in `m_AlignmentToSlice` (replacing the
first entry with that key, or appending a new entry — `emplace`). -/
def bucketSet : List (Nat × List Nat) → Nat → List Nat → List (Nat × List Nat)
  | [], a, v => [(a, v)]
  | p :: rest, a, v => if p.1 = a then (a, v) :: rest else p :: bucketSet rest a v

/-- The iterator walk `while (SliceIt != Slices.end() && Slice > *SliceIt)
++SliceIt`: the first listed index that is `≥ slice`. -/
def findGe (slice : Nat) : List Nat → Option Nat
  | [] => none
  | e :: rest => if slice ≤ e then some e else findGe slice rest

/-- Resizing `std::vector::resize(n)`: truncate or pad with null pointers to
exactly `n` elements. -/
def resizeList {σ : Type} : List (Option σ) → Nat → List (Option σ)
  | _, 0 => []
  | [], n + 1 => none :: resizeList [] n
  | x :: rest, n + 1 => x :: resizeList rest n

/-- The slice-vector growth loop in `Allocate`:
`while (Slice >= m_Slices.size()) m_Slices.resize(min(Slice +
ExtraSliceCount-or-size, MaxSliceCount))`, with explicit fuel (the
source loop diverges when the increment is zero and the vector is
empty; any sufficient fuel gives the loop's fixpoint otherwise). -/
def growSlices {σ : Type} (extraCfg maxCnt slice : Nat) : Nat → List (Option σ) → List (Option σ)
  | 0, ss => ss
  | fuel + 1, ss =>
    if ss.length ≤ slice then
      growSlices extraCfg maxCnt slice fuel
        (resizeList ss (min (slice + (if extraCfg ≠ 0 then extraCfg else ss.length)) maxCnt))
    else ss

/-- The alignment-doubling loop `while (min(Width, Height) > Alignment)
Alignment *= 2`, with fuel (for a start value `≥ 1` the fixpoint is
reached within `target` iterations). -/
def doubleWhile (target : Nat) : Nat → Nat → Nat
  | 0, a => a
  | fuel + 1, a => if a < target then doubleWhile target fuel (a * 2) else a

/-- Alignment resolution in `DynamicTextureAtlasImpl::Allocate`: start
from `m_MinAlignment` and double while smaller than `min(Width,
Height)` — but only when `m_MinAlignment` is nonzero; when it is zero
the alignment is set to `1` without any doubling. -/
def resolveAlignment (w h minAlignment : Nat) : Nat :=
  if 0 < minAlignment then doubleWhile (min w h) (min w h) minAlignment
  else 1

/-- The alignment-resolution rule as the specification words it: start
from the configured minimum alignment, *or from 1 when it is unset*,
and double while the alignment is smaller than `min(width, height)`.
(Kept separate from `resolveAlignment`, the rule the source
implements, to compare the two.) -/
def resolveAlignmentSpec (w h minAlignment : Nat) : Nat :=
  doubleWhile (min w h) (min w h) (if minAlignment = 0 then 1 else minAlignment)

/-- Modelled from the spec: `AlignUp(x, a)` from `Align.hpp` (not among
the sources) rounds up to a multiple of the (power-of-two) alignment;
the arithmetic form is the spec's "round width and height up to
multiples of the resolved alignment". -/
def alignUp (x a : Nat) : Nat :=
  ((x + a - 1) / a) * a

/-- Modelled from the spec: `IsPowerOfTwo` from `Align.hpp` (not among
the sources) — nonzero with a single set bit, the spec's "power of
two" check. -/
def isPowerOfTwo (x : Nat) : Bool :=
  x != 0 && (x &&& (x - 1)) == 0

/-- The bucket list the structural section works with: the mapped list
when the alignment key is present, empty otherwise. -/
def bucketOf {σ : Type} (t : SliceTable σ) (a : Nat) : List Nat :=
  (bucketGet t.buckets a).getD []

/-- The candidate slice chosen by the structural section: the first
bucket entry `≥ slice`, or `m_NextUnusedSlice` when none remains. -/
def candidateOf {σ : Type} (t : SliceTable σ) (a slice : Nat) : Nat :=
  (findGe slice (bucketOf t a)).getD t.nextUnused

/-- The map mutation performed by the lookup-or-create
(`m_AlignmentToSlice.emplace`): the key's entry is (re)stored with the
list it already had, creating an empty entry when absent. -/
def emplaceBucket {σ : Type} (t : SliceTable σ) (a : Nat) : SliceTable σ :=
  { t with buckets := bucketSet t.buckets a (bucketOf t a) }

/-- Creation of a new slice at index `cand` (taken only when `cand =
m_NextUnusedSlice`): grow the slice vector, register the index in the
alignment bucket, construct the slice manager over the
`Width/Alignment × Height/Alignment` cell grid, advance
`m_NextUnusedSlice`. -/
def createSlice {σ : Type} (M : RegionMgr σ) (cfg : AtlasConfig) (a cand : Nat)
    (t : SliceTable σ) : SliceTable σ :=
  { slices := setAt
      (growSlices cfg.extraSliceCount cfg.maxSliceCount cand (cand + t.slices.length + 2) t.slices)
      cand (some (M.init (cfg.width / a) (cfg.height / a)))
    buckets := bucketSet t.buckets a (bucketOf t a ++ [cand])
    nextUnused := t.nextUnused + 1 }

/-- One pass through the structural (`m_SlicesMtx`-guarded) section of
the placement loop.  Returns the updated table and the candidate slice,
`none` standing for the capacity-exhausted `break`
(`Slice == m_MaxSliceCount`). -/
def structuralStep {σ : Type} (M : RegionMgr σ) (cfg : AtlasConfig) (a slice : Nat)
    (t : SliceTable σ) : SliceTable σ × Option Nat :=
  if candidateOf t a slice = t.nextUnused then
    if candidateOf t a slice = cfg.maxSliceCount then (emplaceBucket t a, none)
    else (createSlice M cfg a (candidateOf t a slice) t, some (candidateOf t a slice))
  else (emplaceBucket t a, some (candidateOf t a slice))

/-- The per-slice packing attempt: read `m_Slices[cand]`, and when the
pointer is non-null call the slice manager's `Allocate` (in cell
units), writing the mutated manager back. -/
def tryAllocAt {σ : Type} (M : RegionMgr σ) (cw ch cand : Nat) (t : SliceTable σ) :
    Option Region × SliceTable σ :=
  match sliceAt t.slices cand with
  | none => (none, t)
  | some mgr =>
    (some (M.alloc mgr cw ch).1,
     { t with slices := setAt t.slices cand (some (M.alloc mgr cw ch).2) })

/-- The placement loop of `DynamicTextureAtlasImpl::Allocate`
(`while (Slice < m_MaxSliceCount) ...`), with fuel; on success returns
the region and the slice it was placed in.  A null slice pointer or an
empty region advances the candidate by one (`++Slice`) and retries. -/
def allocLoop {σ : Type} (M : RegionMgr σ) (cfg : AtlasConfig) (a cw ch : Nat) :
    Nat → Nat → SliceTable σ → Option (Region × Nat) × SliceTable σ
  | 0, _, t => (none, t)
  | fuel + 1, slice, t =>
    if slice < cfg.maxSliceCount then
      match structuralStep M cfg a slice t with
      | (t1, none) => (none, t1)
      | (t1, some cand) =>
        match tryAllocAt M cw ch cand t1 with
        | (none, t2) => allocLoop M cfg a cw ch fuel (cand + 1) t2
        | (some r, t2) =>
          if r.IsEmpty then allocLoop M cfg a cw ch fuel (cand + 1) t2
          else (some (r, cand), t2)
    else (none, t)

/-- Operation `DynamicTextureAtlasImpl::Allocate`: validate the request, resolve
the alignment, align the dimensions, run the placement loop, and on
success bump the three usage counters and build the suballocation
handle.  The `UNEXPECTED` on a zero dimension and the error message on
an oversized request both return without touching any state. -/
def atlasAllocate {σ : Type} (M : RegionMgr σ) (cfg : AtlasConfig) (w h : Nat)
    (s : AtlasState σ) : Option Suballoc × AtlasState σ :=
  if w = 0 ∨ h = 0 then (none, s)
  else if cfg.width < w ∨ cfg.height < h then (none, s)
  else
    let a := resolveAlignment w h cfg.minAlignment
    let aw := alignUp w a
    let ah := alignUp h a
    match allocLoop M cfg a (aw / a) (ah / a) (cfg.maxSliceCount + 1) 0 s.table with
    | (none, t') => (none, { s with table := t' })
    | (some (r, sl), t') =>
      (some { region := r, slice := sl, alignment := a, sizeW := w, sizeH := h },
       { s with
          table := t'
          allocatedArea := s.allocatedArea + (w : Int) * (h : Int)
          usedArea := s.usedArea + (aw : Int) * (ah : Int)
          allocationCount := s.allocationCount + 1 })

/-- Result of `DynamicTextureAtlasImpl::Free` in a release build:
either the updated state, or the point at which the code performs an
out-of-range `m_Slices[Slice]` access or dereferences a null slice
pointer (undefined behaviour; the state carried is the one already
mutated before the access — the counters are decremented first). -/
inductive FreeResult (σ : Type) where
  | ok (s : AtlasState σ) : FreeResult σ
  | undefinedAccess (s : AtlasState σ) : FreeResult σ
  deriving DecidableEq, Repr

/-- The `#ifdef DILIGENT_DEBUG` assertions in
`DynamicTextureAtlasImpl::Free`: the alignment has a bucket and the
slice is registered in it.  Debug-only; release builds never evaluate
this. -/
def freeDebugChecks {σ : Type} (s : AtlasState σ) (slice alignment : Nat) : Bool :=
  match bucketGet s.table.buckets alignment with
  | none => false
  | some l => l.contains slice

/-- Operation `DynamicTextureAtlasImpl::Free` (release build): decrement the
three counters (by the requested area, the subregion's aligned area,
and one), then read `m_Slices[Slice]` and call the slice manager's
`Free`.  No range or registration check precedes the vector access. -/
def atlasFree {σ : Type} (M : RegionMgr σ) (slice alignment : Nat) (r : Region)
    (w h : Nat) (s : AtlasState σ) : FreeResult σ :=
  let s1 : AtlasState σ :=
    { s with
        allocatedArea := s.allocatedArea - (w : Int) * (h : Int)
        usedArea := s.usedArea -
          ((r.width * alignment : Nat) : Int) * ((r.height * alignment : Nat) : Int)
        allocationCount := s.allocationCount - 1 }
  match sliceAt s1.table.slices slice with
  | none => .undefinedAccess s1
  | some mgr =>
    .ok { s1 with table := { s1.table with
            slices := setAt s1.table.slices slice (some (M.free mgr r)) } }

/-- Operation `DynamicTextureAtlasImpl::GetTexture`: when the slice-collection
length differs from the descriptor's array size, update the descriptor,
ask the surface factory (`pDevice->CreateTexture`, abstracted as
`createTex`, a function of the new array size) for a new texture, bump
`m_Version`, copy the stale contents (no effect on the modelled state)
and store the new handle; otherwise return the stored handle
untouched.  The `VERIFY_EXPR(pNewTexture)` guarding creation failure is
debug-only: a release build stores whatever the factory returned. -/
def getTexture {σ : Type} (createTex : Nat → Option Nat) (s : AtlasState σ) :
    Option Nat × AtlasState σ :=
  if s.descArraySize = s.table.slices.length then (s.texture, s)
  else
    (createTex s.table.slices.length,
     { s with
        descArraySize := s.table.slices.length
        version := s.version + 1
        texture := createTex s.table.slices.length })

/-- Getter `TextureAtlasSuballocationImpl::GetOrigin`: the region's cell
coordinates scaled by the alignment, in surface pixels. -/
def Suballoc.getOrigin (sa : Suballoc) : Nat × Nat :=
  (sa.region.x * sa.alignment, sa.region.y * sa.alignment)

/-- Getter `TextureAtlasSuballocationImpl::GetSize`: the originally requested
dimensions. -/
def Suballoc.getSize (sa : Suballoc) : Nat × Nat :=
  (sa.sizeW, sa.sizeH)

/-- Getter `TextureAtlasSuballocationImpl::GetSlice`. -/
def Suballoc.getSlice (sa : Suballoc) : Nat :=
  sa.slice

/-- Getter `TextureAtlasSuballocationImpl::GetUVScaleBias`: `(Size.x/W,
Size.y/H, Origin.x/W, Origin.y/H)`.  The source computes these in
`float`; the divisions are modelled exactly over `ℚ`. -/
def Suballoc.getUVScaleBias (sa : Suballoc) (atlasW atlasH : Nat) : ℚ × ℚ × ℚ × ℚ :=
  ((sa.sizeW : ℚ) / (atlasW : ℚ), (sa.sizeH : ℚ) / (atlasH : ℚ),
   ((sa.region.x * sa.alignment : Nat) : ℚ) / (atlasW : ℚ),
   ((sa.region.y * sa.alignment : Nat) : ℚ) / (atlasH : ℚ))

/-- The resource-dimension enum, collapsed to the three cases the
constructor distinguishes. -/
inductive ResDim where
  | tex2D
  | tex2DArray
  | other
  deriving DecidableEq, Repr

/-- The descriptor fields the constructor validates:
`m_Desc.Type`, whether `m_Desc.Format == TEX_FORMAT_UNKNOWN`,
`m_Desc.Width`, `m_Desc.Height`, `m_Desc.ArraySize`. -/
structure AtlasDesc where
  type : ResDim
  formatUnknown : Bool
  width : Nat
  height : Nat
  arraySize : Nat
  deriving DecidableEq, Repr

/-- The `LOG_ERROR_AND_THROW` validation chain of the
`DynamicTextureAtlasImpl` constructor, as one boolean. -/
def ctorValidationFails (d : AtlasDesc) (minAlignment : Nat) : Bool :=
  (!(d.type == ResDim.tex2D) && !(d.type == ResDim.tex2DArray)) ||
  d.formatUnknown ||
  (d.width == 0) || (d.height == 0) ||
  (!(minAlignment == 0) &&
    (!(isPowerOfTwo minAlignment) ||
     !(d.width % minAlignment == 0) || !(d.height % minAlignment == 0)))

/-- The `DynamicTextureAtlasImpl` constructor wrapped by
`CreateDynamicTextureAtlas` (which turns any throw into a reported
failure, `none` here): run the validation chain, size `m_Slices` to the
descriptor's array size, zero the array size when no device was given,
create the initial texture when the array size is positive (failing
construction when the factory returns nothing), and zero the counters
and version. -/
def atlasConstruct (σ : Type) (createTex : Nat → Option Nat) (devicePresent : Bool)
    (d : AtlasDesc) (minAlignment : Nat) : Option (AtlasState σ) :=
  if ctorValidationFails d minAlignment then none
  else
    let slices : List (Option σ) := List.replicate d.arraySize none
    let arraySize := if devicePresent then d.arraySize else 0
    if 0 < arraySize then
      match createTex arraySize with
      | none => none
      | some tex =>
        some { table := ⟨slices, [], 0⟩, allocatedArea := 0, usedArea := 0,
               allocationCount := 0, version := 0, descArraySize := arraySize,
               texture := some tex }
    else
      some { table := ⟨slices, [], 0⟩, allocatedArea := 0, usedArea := 0,
             allocationCount := 0, version := 0, descArraySize := arraySize,
             texture := none }

/-- An operation sequence against one atlas: public `Allocate` calls
and the `Free` calls issued by handle destruction. -/
inductive AtlasOp where
  | alloc (w h : Nat)
  | free (slice alignment : Nat) (r : Region) (w h : Nat)
  deriving DecidableEq, Repr

/-- Run one operation; a `Free` that would hit undefined behaviour is
not modelled further (the state is left as it was). -/
def runOp {σ : Type} (M : RegionMgr σ) (cfg : AtlasConfig) (s : AtlasState σ) :
    AtlasOp → AtlasState σ
  | .alloc w h => (atlasAllocate M cfg w h s).2
  | .free slice alignment r w h =>
    match atlasFree M slice alignment r w h s with
    | .ok s' => s'
    | .undefinedAccess _ => s

/-- Run a sequence of operations. -/
def runOps {σ : Type} (M : RegionMgr σ) (cfg : AtlasConfig) (ops : List AtlasOp)
    (s : AtlasState σ) : AtlasState σ :=
  ops.foldl (runOp M cfg) s

/-- A concrete single-shot region manager used to evaluate the model on
concrete inputs: a fresh slice satisfies one allocation at the origin
and is then exhausted until freed. -/
def boolMgr : RegionMgr Bool where
  init := fun _ _ => true
  alloc := fun st w h => if st then (⟨0, 0, w, h⟩, false) else (⟨0, 0, 0, 0⟩, st)
  free := fun _ _ => true

/-- A concrete configuration: a 256×256 atlas, no minimum alignment,
growth increment 1, at most one slice. -/
def cfg0 : AtlasConfig :=
  ⟨256, 256, 0, 1, 1⟩

/-- The empty initial state (no slices, no buckets, zeroed counters). -/
def state0 : AtlasState Bool :=
  { table := ⟨[], [], 0⟩, allocatedArea := 0, usedArea := 0, allocationCount := 0,
    version := 0, descArraySize := 0, texture := none }

/-- The handle produced by `Allocate(64, 64)` on `state0` under `cfg0`. -/
def hnd0 : Suballoc :=
  ⟨⟨0, 0, 64, 64⟩, 0, 1, 64, 64⟩

/-- The state after `Allocate(64, 64)` on `state0` under `cfg0`. -/
def state1 : AtlasState Bool :=
  { table := ⟨[some false], [(1, [0])], 1⟩, allocatedArea := 4096, usedArea := 4096,
    allocationCount := 1, version := 0, descArraySize := 0, texture := none }

/-- A state whose slice collection (2 entries) has outgrown the
descriptor's array size (1), holding surface handle 7: `GetTexture`
must grow it. -/
def stateGrow : AtlasState Bool :=
  { table := ⟨[none, none], [], 0⟩, allocatedArea := 0, usedArea := 0, allocationCount := 0,
    version := 0, descArraySize := 1, texture := some 7 }

/-- The structural well-formedness invariant of the slice table,
relative to `m_MaxSliceCount`: every bucket entry names an
already-created slice; a slice index appears under at most one
alignment; every created index holds a manager; indices at or past
`m_NextUnusedSlice` are still null; and `m_NextUnusedSlice` never
passes the slice-count cap. -/
structure WF {σ : Type} (maxCnt : Nat) (t : SliceTable σ) : Prop where
  elemLt : ∀ p ∈ t.buckets, ∀ i ∈ p.2, i < t.nextUnused
  uniq : ∀ p ∈ t.buckets, ∀ q ∈ t.buckets, ∀ i, i ∈ p.2 → i ∈ q.2 → p.1 = q.1
  allocIdx : ∀ i, i < t.nextUnused → (sliceAt t.slices i).isSome
  fresh : ∀ i, t.nextUnused ≤ i → sliceAt t.slices i = none
  nextLe : t.nextUnused ≤ maxCnt

/-- Growth of the slice table across an operation: the next-unused
counter and the vector length never shrink, created slices persist, and
bucket lists only gain a suffix. -/
def TableExtends {σ : Type} (t t' : SliceTable σ) : Prop :=
  t.nextUnused ≤ t'.nextUnused ∧
  t.slices.length ≤ t'.slices.length ∧
  (∀ i mgr, sliceAt t.slices i = some mgr → ∃ mgr', sliceAt t'.slices i = some mgr') ∧
  (∀ b l, bucketGet t.buckets b = some l → ∃ tl, bucketGet t'.buckets b = some (l ++ tl))

/-! ### Basic lemmas about the container operations -/

theorem sliceAt_oob {σ : Type} (ss : List (Option σ)) (i : Nat) (h : ss.length ≤ i) :
    sliceAt ss i = none := by
  induction ss generalizing i with
  | nil => cases i <;> rfl
  | cons x rest ih =>
    cases i with
    | zero => simp at h
    | succ j =>
      simp only [List.length_cons, Nat.succ_le_succ_iff] at h
      exact ih j h

theorem sliceAt_lt_of_some {σ : Type} (ss : List (Option σ)) (i : Nat) (mgr : σ)
    (h : sliceAt ss i = some mgr) : i < ss.length := by
  by_contra hge
  rw [sliceAt_oob ss i (Nat.le_of_not_lt hge)] at h
  exact Option.noConfusion h

theorem length_setAt {σ : Type} (ss : List (Option σ)) (i : Nat) (v : Option σ) :
    (setAt ss i v).length = ss.length := by
  induction ss generalizing i with
  | nil => rfl
  | cons x rest ih => cases i <;> simp [setAt, ih]

theorem sliceAt_setAt_self {σ : Type} (ss : List (Option σ)) (i : Nat) (v : Option σ)
    (h : i < ss.length) : sliceAt (setAt ss i v) i = v := by
  induction ss generalizing i with
  | nil => simp at h
  | cons x rest ih =>
    cases i with
    | zero => rfl
    | succ j =>
      simp only [List.length_cons, Nat.succ_lt_succ_iff] at h
      exact ih j h

theorem sliceAt_setAt_ne {σ : Type} (ss : List (Option σ)) (i j : Nat) (v : Option σ)
    (h : i ≠ j) : sliceAt (setAt ss i v) j = sliceAt ss j := by
  induction ss generalizing i j with
  | nil => cases i <;> rfl
  | cons x rest ih =>
    cases i with
    | zero => cases j with
      | zero => exact absurd rfl h
      | succ k => rfl
    | succ i' =>
      cases j with
      | zero => rfl
      | succ k => exact ih i' k (fun he => h (by rw [he]))

theorem length_resizeList {σ : Type} (ss : List (Option σ)) (n : Nat) :
    (resizeList ss n).length = n := by
  induction n generalizing ss with
  | zero => cases ss <;> rfl
  | succ m ih => cases ss <;> simp [resizeList, ih]

theorem sliceAt_resizeList_lt {σ : Type} (ss : List (Option σ)) (n i : Nat)
    (hi : i < ss.length) (hn : i < n) : sliceAt (resizeList ss n) i = sliceAt ss i := by
  induction n generalizing ss i with
  | zero => omega
  | succ m ih =>
    cases ss with
    | nil => simp at hi
    | cons x rest =>
      cases i with
      | zero => rfl
      | succ j =>
        simp only [List.length_cons, Nat.succ_lt_succ_iff] at hi
        exact ih rest j hi (Nat.lt_of_succ_lt_succ hn)

theorem sliceAt_resizeList_none {σ : Type} (ss : List (Option σ)) (n i : Nat)
    (h : sliceAt ss i = none) : sliceAt (resizeList ss n) i = none := by
  induction n generalizing ss i with
  | zero => cases ss <;> exact sliceAt_oob _ _ (by simp [length_resizeList])
  | succ m ih =>
    cases ss with
    | nil =>
      cases i with
      | zero => rfl
      | succ j => exact ih [] j rfl
    | cons x rest =>
      cases i with
      | zero => exact h
      | succ j => exact ih rest j h

theorem bucketGet_set_self (bs : List (Nat × List Nat)) (a : Nat) (v : List Nat) :
    bucketGet (bucketSet bs a v) a = some v := by
  induction bs with
  | nil => simp [bucketSet, bucketGet]
  | cons p rest ih =>
    by_cases hp : p.1 = a
    · simp [bucketSet, hp, bucketGet]
    · simp [bucketSet, hp, bucketGet, ih]

theorem bucketGet_set_ne (bs : List (Nat × List Nat)) (a b : Nat) (v : List Nat)
    (h : a ≠ b) : bucketGet (bucketSet bs a v) b = bucketGet bs b := by
  induction bs with
  | nil => simp [bucketSet, bucketGet, h]
  | cons p rest ih =>
    by_cases hp : p.1 = a
    · simp [bucketSet, hp, bucketGet, h, hp ▸ h]
    · simp [bucketSet, hp, bucketGet, ih]

theorem mem_bucketSet (bs : List (Nat × List Nat)) (a : Nat) (v : List Nat) :
    ∀ q ∈ bucketSet bs a v, q = (a, v) ∨ q ∈ bs := by
  induction bs with
  | nil => intro q hq; simp [bucketSet] at hq; exact Or.inl hq
  | cons p rest ih =>
    intro q hq
    by_cases hp : p.1 = a
    · simp only [bucketSet, if_pos hp, List.mem_cons] at hq
      rcases hq with h | h
      · exact Or.inl h
      · exact Or.inr (List.mem_cons_of_mem _ h)
    · simp only [bucketSet, if_neg hp, List.mem_cons] at hq
      rcases hq with h | h
      · exact Or.inr (h ▸ List.mem_cons_self _ _)
      · rcases ih q h with h' | h'
        · exact Or.inl h'
        · exact Or.inr (List.mem_cons_of_mem _ h')

theorem bucketGet_mem (bs : List (Nat × List Nat)) (a : Nat) (l : List Nat)
    (h : bucketGet bs a = some l) : (a, l) ∈ bs := by
  induction bs with
  | nil => exact absurd h (by simp [bucketGet])
  | cons p rest ih =>
    by_cases hp : p.1 = a
    · simp only [bucketGet, if_pos hp] at h
      obtain ⟨p1, p2⟩ := p
      simp only at hp h
      subst hp; rw [← Option.some_inj.mp h]; exact List.mem_cons_self _ _
    · simp only [bucketGet, if_neg hp] at h
      exact List.mem_cons_of_mem _ (ih h)

theorem findGe_mem (slice : Nat) (l : List Nat) (e : Nat) (h : findGe slice l = some e) :
    e ∈ l := by
  induction l with
  | nil => exact absurd h (by simp [findGe])
  | cons x rest ih =>
    by_cases hx : slice ≤ x
    · simp only [findGe, if_pos hx] at h
      rw [← Option.some_inj.mp h]; exact List.mem_cons_self _ _
    · simp only [findGe, if_neg hx] at h
      exact List.mem_cons_of_mem _ (ih h)

theorem bucketOf_cases {σ : Type} (t : SliceTable σ) (a : Nat) :
    bucketGet t.buckets a = some (bucketOf t a) ∨
    (bucketGet t.buckets a = none ∧ bucketOf t a = []) := by
  unfold bucketOf
  cases h : bucketGet t.buckets a with
  | none => exact Or.inr ⟨rfl, rfl⟩
  | some l => exact Or.inl rfl

/-! ### The slice-vector growth loop -/

theorem growSlices_of_lt {σ : Type} (extraCfg maxCnt slice fuel : Nat) (ss : List (Option σ))
    (h : slice < ss.length) : growSlices extraCfg maxCnt slice (fuel + 1) ss = ss := by
  simp [growSlices, Nat.not_le.mpr h]

theorem growSlices_spec {σ : Type} (extraCfg maxCnt slice fuel : Nat) (ss : List (Option σ))
    (hle : ss.length ≤ slice) (hlt : slice < maxCnt)
    (hnz : extraCfg ≠ 0 ∨ ss ≠ []) :
    growSlices extraCfg maxCnt slice (fuel + 2) ss =
      resizeList ss (min (slice + (if extraCfg ≠ 0 then extraCfg else ss.length)) maxCnt) ∧
    slice < (growSlices extraCfg maxCnt slice (fuel + 2) ss).length := by
  have hextra : 1 ≤ (if extraCfg ≠ 0 then extraCfg else ss.length) := by
    rcases hnz with h | h
    · simp [h]; omega
    · by_cases hc : extraCfg ≠ 0
      · simp [hc]; omega
      · have : 0 < ss.length := List.length_pos.mpr h
        simp [hc]; omega
  have hnew : slice < min (slice + (if extraCfg ≠ 0 then extraCfg else ss.length)) maxCnt := by
    apply Nat.lt_min.mpr
    exact ⟨by omega, hlt⟩
  have step1 : growSlices extraCfg maxCnt slice (fuel + 2) ss =
      growSlices extraCfg maxCnt slice (fuel + 1)
        (resizeList ss (min (slice + (if extraCfg ≠ 0 then extraCfg else ss.length)) maxCnt)) := by
    show (if ss.length ≤ slice then _ else ss) = _
    rw [if_pos hle]
  have hlen : (resizeList ss
      (min (slice + (if extraCfg ≠ 0 then extraCfg else ss.length)) maxCnt)).length =
      min (slice + (if extraCfg ≠ 0 then extraCfg else ss.length)) maxCnt :=
    length_resizeList _ _
  have step2 := growSlices_of_lt (σ := σ) extraCfg maxCnt slice fuel
    (resizeList ss (min (slice + (if extraCfg ≠ 0 then extraCfg else ss.length)) maxCnt))
    (by rw [hlen]; exact hnew)
  refine ⟨by rw [step1, step2], ?_⟩
  rw [step1, step2, hlen]
  exact hnew

theorem growSlices_facts {σ : Type} (extraCfg maxCnt cand : Nat) (ss : List (Option σ))
    (hlt : cand < maxCnt) (hnz : extraCfg ≠ 0 ∨ ss ≠ []) :
    ss.length ≤ (growSlices extraCfg maxCnt cand (cand + ss.length + 2) ss).length ∧
    cand < (growSlices extraCfg maxCnt cand (cand + ss.length + 2) ss).length ∧
    (∀ i mgr, sliceAt ss i = some mgr →
      sliceAt (growSlices extraCfg maxCnt cand (cand + ss.length + 2) ss) i = some mgr) ∧
    (∀ i, sliceAt ss i = none →
      sliceAt (growSlices extraCfg maxCnt cand (cand + ss.length + 2) ss) i = none) := by
  by_cases hle : ss.length ≤ cand
  · obtain ⟨heq, hcl⟩ := growSlices_spec extraCfg maxCnt cand (cand + ss.length) ss hle hlt hnz
    refine ⟨?_, hcl, ?_, ?_⟩
    · rw [heq, length_resizeList]
      have : cand < min (cand + (if extraCfg ≠ 0 then extraCfg else ss.length)) maxCnt := by
        rw [heq, length_resizeList] at hcl; exact hcl
      omega
    · intro i mgr hi
      have hilt : i < ss.length := sliceAt_lt_of_some ss i mgr hi
      rw [heq, sliceAt_resizeList_lt ss _ i hilt (by
        rw [heq, length_resizeList] at hcl; omega)]
      exact hi
    · intro i hi
      rw [heq]
      exact sliceAt_resizeList_none ss _ i hi
  · push_neg at hle
    have heq : growSlices extraCfg maxCnt cand (cand + ss.length + 2) ss = ss := by
      have : cand + ss.length + 2 = (cand + ss.length + 1) + 1 := by omega
      rw [this]
      exact growSlices_of_lt _ _ _ _ _ hle
    rw [heq]
    exact ⟨Nat.le_refl _, hle, fun i mgr hi => hi, fun i hi => hi⟩

/-! ### Table growth: reflexivity and transitivity -/

theorem TableExtends.rfl {σ : Type} (t : SliceTable σ) : TableExtends t t :=
  ⟨Nat.le_refl _, Nat.le_refl _, fun i mgr h => ⟨mgr, h⟩,
   fun b l h => ⟨[], by rw [List.append_nil]; exact h⟩⟩

theorem TableExtends.trans {σ : Type} {t1 t2 t3 : SliceTable σ}
    (h12 : TableExtends t1 t2) (h23 : TableExtends t2 t3) : TableExtends t1 t3 := by
  obtain ⟨ha1, hb1, hc1, hd1⟩ := h12
  obtain ⟨ha2, hb2, hc2, hd2⟩ := h23
  refine ⟨Nat.le_trans ha1 ha2, Nat.le_trans hb1 hb2, ?_, ?_⟩
  · intro i mgr h
    obtain ⟨mgr', h'⟩ := hc1 i mgr h
    exact hc2 i mgr' h'
  · intro b l h
    obtain ⟨tl, h'⟩ := hd1 b l h
    obtain ⟨tl', h''⟩ := hd2 b (l ++ tl) h'
    exact ⟨tl ++ tl', by rw [← List.append_assoc]; exact h''⟩

/-! ### The structural section preserves the invariant and only grows -/

theorem emplaceBucket_spec {σ : Type} (t : SliceTable σ) (a maxCnt : Nat)
    (hWF : WF maxCnt t) :
    WF maxCnt (emplaceBucket t a) ∧ TableExtends t (emplaceBucket t a) ∧
    (bucketGet (emplaceBucket t a).buckets a).isSome := by
  have hmem : ∀ p ∈ (emplaceBucket t a).buckets, (p = (a, bucketOf t a) ∨ p ∈ t.buckets) :=
    fun p hp => mem_bucketSet t.buckets a (bucketOf t a) p hp
  have hInBuckets : ∀ i, i ∈ bucketOf t a → ∃ p, p ∈ t.buckets ∧ p.1 = a ∧ i ∈ p.2 := by
    intro i hi
    rcases bucketOf_cases t a with hcase | ⟨_, hempty⟩
    · exact ⟨(a, bucketOf t a), bucketGet_mem _ _ _ hcase, rfl, hi⟩
    · rw [hempty] at hi; exact absurd hi (List.not_mem_nil i)
  refine ⟨⟨?_, ?_, hWF.allocIdx, hWF.fresh, hWF.nextLe⟩, ⟨Nat.le_refl _, Nat.le_refl _,
    fun i mgr h => ⟨mgr, h⟩, ?_⟩, ?_⟩
  · intro p hp i hi
    rcases hmem p hp with h | h
    · rw [h] at hi
      obtain ⟨q, hq, _, hiq⟩ := hInBuckets i hi
      exact hWF.elemLt q hq i hiq
    · exact hWF.elemLt p h i hi
  · intro p hp q hq i hip hiq
    rcases hmem p hp with h1 | h1 <;> rcases hmem q hq with h2 | h2
    · rw [h1, h2]
    · rw [h1] at hip ⊢
      obtain ⟨p', hp', hp'1, hip'⟩ := hInBuckets i hip
      rw [← hp'1]
      exact hWF.uniq p' hp' q h2 i hip' hiq
    · rw [h2] at hiq ⊢
      obtain ⟨q', hq', hq'1, hiq'⟩ := hInBuckets i hiq
      rw [← hq'1]
      exact hWF.uniq p h1 q' hq' i hip hiq'
    · exact hWF.uniq p h1 q h2 i hip hiq
  · intro b l h
    by_cases hab : a = b
    · subst hab
      refine ⟨[], ?_⟩
      rw [List.append_nil]
      show bucketGet (bucketSet t.buckets a (bucketOf t a)) a = some l
      rw [bucketGet_set_self]
      unfold bucketOf
      rw [h]
      rfl
    · refine ⟨[], ?_⟩
      rw [List.append_nil]
      show bucketGet (bucketSet t.buckets a (bucketOf t a)) b = some l
      rw [bucketGet_set_ne _ _ _ _ hab]
      exact h
  · show (bucketGet (bucketSet t.buckets a (bucketOf t a)) a).isSome
    rw [bucketGet_set_self]
    rfl

theorem createSlice_spec {σ : Type} (M : RegionMgr σ) (cfg : AtlasConfig) (a cand : Nat)
    (t : SliceTable σ) (hWF : WF cfg.maxSliceCount t) (hcand : cand = t.nextUnused)
    (hne : cand ≠ cfg.maxSliceCount)
    (hnz : cfg.extraSliceCount ≠ 0 ∨ t.slices ≠ []) :
    WF cfg.maxSliceCount (createSlice M cfg a cand t) ∧
    TableExtends t (createSlice M cfg a cand t) ∧
    (bucketGet (createSlice M cfg a cand t).buckets a).isSome := by
  have hlt : cand < cfg.maxSliceCount :=
    Nat.lt_of_le_of_ne (hcand ▸ hWF.nextLe) hne
  obtain ⟨hglen, hclen, hG1, hG2⟩ :=
    growSlices_facts cfg.extraSliceCount cfg.maxSliceCount cand t.slices hlt hnz
  set grown := growSlices cfg.extraSliceCount cfg.maxSliceCount cand
    (cand + t.slices.length + 2) t.slices with hgrown
  have hslices : (createSlice M cfg a cand t).slices =
      setAt grown cand (some (M.init (cfg.width / a) (cfg.height / a))) := rfl
  have hbuckets : (createSlice M cfg a cand t).buckets =
      bucketSet t.buckets a (bucketOf t a ++ [cand]) := rfl
  have hnext : (createSlice M cfg a cand t).nextUnused = t.nextUnused + 1 := rfl
  have hmem : ∀ p ∈ (createSlice M cfg a cand t).buckets,
      (p = (a, bucketOf t a ++ [cand]) ∨ p ∈ t.buckets) := by
    rw [hbuckets]; exact mem_bucketSet t.buckets a _
  have hInBuckets : ∀ i, i ∈ bucketOf t a → ∃ p, p ∈ t.buckets ∧ p.1 = a ∧ i ∈ p.2 := by
    intro i hi
    rcases bucketOf_cases t a with hcase | ⟨_, hempty⟩
    · exact ⟨(a, bucketOf t a), bucketGet_mem _ _ _ hcase, rfl, hi⟩
    · rw [hempty] at hi; exact absurd hi (List.not_mem_nil i)
  have hOldLt : ∀ p ∈ t.buckets, ∀ i ∈ p.2, i < t.nextUnused := hWF.elemLt
  refine ⟨⟨?_, ?_, ?_, ?_, ?_⟩, ⟨?_, ?_, ?_, ?_⟩, ?_⟩
  · -- elemLt
    intro p hp i hi
    rw [hnext]
    rcases hmem p hp with h | h
    · rw [h] at hi
      rcases List.mem_append.mp hi with h' | h'
      · obtain ⟨q, hq, _, hiq⟩ := hInBuckets i h'
        exact Nat.lt_succ_of_lt (hOldLt q hq i hiq)
      · rw [List.mem_singleton.mp h', hcand]
        exact Nat.lt_succ_self _
    · exact Nat.lt_succ_of_lt (hOldLt p h i hi)
  · -- uniq
    intro p hp q hq i hip hiq
    have key : ∀ s, s ∈ t.buckets → i ∈ s.2 → i ∈ bucketOf t a ++ [cand] → a = s.1 := by
      intro s hs his hinew
      rcases List.mem_append.mp hinew with h' | h'
      · obtain ⟨p', hp', hp'1, hip'⟩ := hInBuckets i h'
        rw [← hp'1]
        exact hWF.uniq p' hp' s hs i hip' his
      · exfalso
        have : i < t.nextUnused := hOldLt s hs i his
        rw [List.mem_singleton.mp h', hcand] at this
        omega
    rcases hmem p hp with h1 | h1 <;> rcases hmem q hq with h2 | h2
    · rw [h1, h2]
    · rw [h1] at hip ⊢
      exact key q h2 hiq hip
    · rw [h2] at hiq ⊢
      exact (key p h1 hip hiq).symm
    · exact hWF.uniq p h1 q h2 i hip hiq
  · -- allocIdx
    intro i hi
    rw [hnext] at hi
    rw [hslices]
    by_cases hic : i = cand
    · rw [hic, sliceAt_setAt_self grown cand _ hclen]
      rfl
    · have hilt : i < t.nextUnused := by omega
      obtain ⟨mgr, hmgr⟩ := Option.isSome_iff_exists.mp (hWF.allocIdx i hilt)
      rw [sliceAt_setAt_ne grown cand i _ (fun he => hic he.symm), hG1 i mgr hmgr]
      rfl
  · -- fresh
    intro i hi
    rw [hnext] at hi
    rw [hslices]
    have hic : cand ≠ i := by omega
    rw [sliceAt_setAt_ne grown cand i _ hic]
    exact hG2 i (hWF.fresh i (by omega))
  · -- nextLe
    rw [hnext]
    omega
  · -- extends: nextUnused
    rw [hnext]; omega
  · -- extends: length
    rw [hslices, length_setAt]
    exact hglen
  · -- extends: slices preserved
    intro i mgr h
    have hilt : i < t.nextUnused := by
      by_contra hge
      rw [hWF.fresh i (Nat.le_of_not_lt hge)] at h
      exact Option.noConfusion h
    have hic : cand ≠ i := by omega
    refine ⟨mgr, ?_⟩
    rw [hslices, sliceAt_setAt_ne grown cand i _ hic]
    exact hG1 i mgr h
  · -- extends: buckets grow by a suffix
    intro b l h
    rw [hbuckets]
    by_cases hab : a = b
    · subst hab
      have hb : bucketOf t a = l := by unfold bucketOf; rw [h]; rfl
      exact ⟨[cand], by rw [bucketGet_set_self, hb]⟩
    · exact ⟨[], by rw [List.append_nil, bucketGet_set_ne _ _ _ _ hab]; exact h⟩
  · -- the alignment's bucket exists afterwards
    rw [hbuckets, bucketGet_set_self]
    rfl

theorem setSlice_WF {σ : Type} (maxCnt : Nat) (t : SliceTable σ) (cand : Nat) (v : σ)
    (hWF : WF maxCnt t) (hmgr : (sliceAt t.slices cand).isSome) :
    WF maxCnt { t with slices := setAt t.slices cand (some v) } ∧
    TableExtends t { t with slices := setAt t.slices cand (some v) } := by
  obtain ⟨mgr, hmgr⟩ := Option.isSome_iff_exists.mp hmgr
  have hclen : cand < t.slices.length := sliceAt_lt_of_some _ _ _ hmgr
  have hcand : cand < t.nextUnused := by
    by_contra hge
    rw [hWF.fresh cand (Nat.le_of_not_lt hge)] at hmgr
    exact Option.noConfusion hmgr
  refine ⟨⟨hWF.elemLt, hWF.uniq, ?_, ?_, hWF.nextLe⟩,
    ⟨Nat.le_refl _, by simp [length_setAt], ?_, fun b l h => ⟨[], by
        rw [List.append_nil]; exact h⟩⟩⟩
  · intro i hi
    show (sliceAt (setAt t.slices cand _) i).isSome
    by_cases hic : i = cand
    · rw [hic, sliceAt_setAt_self _ _ _ hclen]; rfl
    · rw [sliceAt_setAt_ne _ _ _ _ (fun he => hic he.symm)]
      exact hWF.allocIdx i hi
  · intro i hi
    have hi' : t.nextUnused ≤ i := hi
    show sliceAt (setAt t.slices cand _) i = none
    have hic : cand ≠ i := by omega
    rw [sliceAt_setAt_ne _ _ _ _ hic]
    exact hWF.fresh i hi'
  · intro i mgr' h
    show ∃ mgr'', sliceAt (setAt t.slices cand _) i = some mgr''
    by_cases hic : i = cand
    · exact ⟨v, by rw [hic, sliceAt_setAt_self _ _ _ hclen]⟩
    · exact ⟨mgr', by rw [sliceAt_setAt_ne _ _ _ _ (fun he => hic he.symm)]; exact h⟩

theorem tryAllocAt_none {σ : Type} (M : RegionMgr σ) (cw ch cand : Nat) (t : SliceTable σ)
    (h : sliceAt t.slices cand = none) : tryAllocAt M cw ch cand t = (none, t) := by
  unfold tryAllocAt
  rw [h]

theorem tryAllocAt_some {σ : Type} (M : RegionMgr σ) (cw ch cand : Nat) (t : SliceTable σ)
    (mgr : σ) (h : sliceAt t.slices cand = some mgr) :
    tryAllocAt M cw ch cand t =
      (some (M.alloc mgr cw ch).1,
       { t with slices := setAt t.slices cand (some (M.alloc mgr cw ch).2) }) := by
  unfold tryAllocAt
  rw [h]

theorem tryAllocAt_spec {σ : Type} (M : RegionMgr σ) (cw ch cand maxCnt : Nat)
    (t : SliceTable σ) (hWF : WF maxCnt t) :
    WF maxCnt (tryAllocAt M cw ch cand t).2 ∧ TableExtends t (tryAllocAt M cw ch cand t).2 ∧
    (tryAllocAt M cw ch cand t).2.buckets = t.buckets := by
  cases hmgr : sliceAt t.slices cand with
  | none => rw [tryAllocAt_none M cw ch cand t hmgr]; exact ⟨hWF, TableExtends.rfl t, rfl⟩
  | some mgr =>
    rw [tryAllocAt_some M cw ch cand t mgr hmgr]
    obtain ⟨h1, h2⟩ := setSlice_WF maxCnt t cand ((M.alloc mgr cw ch).2) hWF (by rw [hmgr]; rfl)
    exact ⟨h1, h2, rfl⟩

theorem structuralStep_spec {σ : Type} (M : RegionMgr σ) (cfg : AtlasConfig) (a slice : Nat)
    (t : SliceTable σ) (hWF : WF cfg.maxSliceCount t)
    (hnz : cfg.extraSliceCount ≠ 0 ∨ t.slices ≠ []) :
    WF cfg.maxSliceCount (structuralStep M cfg a slice t).1 ∧
    TableExtends t (structuralStep M cfg a slice t).1 ∧
    (bucketGet (structuralStep M cfg a slice t).1.buckets a).isSome := by
  unfold structuralStep
  by_cases h1 : candidateOf t a slice = t.nextUnused
  · by_cases h2 : candidateOf t a slice = cfg.maxSliceCount
    · rw [if_pos h1, if_pos h2]
      exact emplaceBucket_spec t a cfg.maxSliceCount hWF
    · rw [if_pos h1, if_neg h2]
      exact createSlice_spec M cfg a (candidateOf t a slice) t hWF h1 h2 hnz
  · rw [if_neg h1]
    exact emplaceBucket_spec t a cfg.maxSliceCount hWF

theorem nonempty_of_extends {σ : Type} {t t' : SliceTable σ} (hx : TableExtends t t')
    (hnz : cfg ≠ 0 ∨ t.slices ≠ []) : cfg ≠ 0 ∨ t'.slices ≠ [] := by
  rcases hnz with h | h
  · exact Or.inl h
  · refine Or.inr ?_
    have := hx.2.1
    have h0 : 0 < t.slices.length := List.length_pos.mpr h
    exact List.length_pos.mp (by omega)

theorem allocLoop_spec {σ : Type} (M : RegionMgr σ) (cfg : AtlasConfig) (a cw ch : Nat) :
    ∀ (fuel slice : Nat) (t : SliceTable σ), WF cfg.maxSliceCount t →
      (cfg.extraSliceCount ≠ 0 ∨ t.slices ≠ []) →
      WF cfg.maxSliceCount (allocLoop M cfg a cw ch fuel slice t).2 ∧
      TableExtends t (allocLoop M cfg a cw ch fuel slice t).2 := by
  intro fuel
  induction fuel with
  | zero => exact fun slice t hWF _ => ⟨hWF, TableExtends.rfl t⟩
  | succ n ih =>
    intro slice t hWF hnz
    rw [allocLoop]
    by_cases hguard : slice < cfg.maxSliceCount
    · rw [if_pos hguard]
      obtain ⟨hWF1, hx1, _⟩ := structuralStep_spec M cfg a slice t hWF hnz
      split
      next t1 hstep =>
        rw [hstep] at hWF1 hx1
        exact ⟨hWF1, hx1⟩
      next t1 cand hstep =>
        rw [hstep] at hWF1 hx1
        obtain ⟨hWF2, hx2, _⟩ := tryAllocAt_spec M cw ch cand cfg.maxSliceCount t1 hWF1
        have hnz2 : cfg.extraSliceCount ≠ 0 ∨ (tryAllocAt M cw ch cand t1).2.slices ≠ [] :=
          nonempty_of_extends (TableExtends.trans hx1 hx2) hnz
        split
        next t2 htry =>
          rw [htry] at hWF2 hx2 hnz2
          obtain ⟨hWF3, hx3⟩ := ih (cand + 1) t2 hWF2 hnz2
          exact ⟨hWF3, TableExtends.trans (TableExtends.trans hx1 hx2) hx3⟩
        next r t2 htry =>
          rw [htry] at hWF2 hx2 hnz2
          by_cases hre : r.IsEmpty
          · rw [if_pos hre]
            obtain ⟨hWF3, hx3⟩ := ih (cand + 1) t2 hWF2 hnz2
            exact ⟨hWF3, TableExtends.trans (TableExtends.trans hx1 hx2) hx3⟩
          · rw [if_neg hre]
            exact ⟨hWF2, TableExtends.trans hx1 hx2⟩
    · rw [if_neg hguard]
      exact ⟨hWF, TableExtends.rfl t⟩

theorem allocLoop_success {σ : Type} (M : RegionMgr σ) (cfg : AtlasConfig) (a cw ch : Nat) :
    ∀ (fuel slice : Nat) (t : SliceTable σ) (r : Region) (sl : Nat) (t' : SliceTable σ),
      allocLoop M cfg a cw ch fuel slice t = (some (r, sl), t') →
      r.IsEmpty = false ∧
      ∃ mgr, (M.alloc mgr cw ch).1 = r ∧ sliceAt t'.slices sl = some ((M.alloc mgr cw ch).2) := by
  intro fuel
  induction fuel with
  | zero =>
    intro slice t r sl t' h
    exact absurd h (by simp [allocLoop])
  | succ n ih =>
    intro slice t r sl t' h
    rw [allocLoop] at h
    by_cases hguard : slice < cfg.maxSliceCount
    · rw [if_pos hguard] at h
      split at h
      next t1 hstep => exact absurd h (by simp)
      next t1 cand hstep =>
        split at h
        next t2 htry => exact ih (cand + 1) t2 r sl t' h
        next r0 t2 htry =>
          by_cases hre : r0.IsEmpty
          · rw [if_pos hre] at h
            exact ih (cand + 1) t2 r sl t' h
          · rw [if_neg hre] at h
            simp only [Prod.mk.injEq, Option.some.injEq] at h
            obtain ⟨⟨hr, hsl⟩, ht⟩ := h
            cases hmgr : sliceAt t1.slices cand with
            | none =>
              rw [tryAllocAt_none M cw ch cand t1 hmgr] at htry
              exact absurd htry (by simp)
            | some mgr =>
              rw [tryAllocAt_some M cw ch cand t1 mgr hmgr] at htry
              simp only [Prod.mk.injEq, Option.some.injEq] at htry
              obtain ⟨htr, ht2⟩ := htry
              have hclen : cand < t1.slices.length := sliceAt_lt_of_some _ _ _ hmgr
              refine ⟨by rw [← hr]; exact Bool.not_eq_true _ ▸ eq_false_of_ne_true hre, mgr,
                by rw [htr, hr], ?_⟩
              rw [← ht, ← ht2, ← hsl]
              exact sliceAt_setAt_self _ _ _ hclen
    · rw [if_neg hguard] at h
      exact absurd h (by simp)

theorem allocLoop_fail_bucket {σ : Type} (M : RegionMgr σ) (cfg : AtlasConfig)
    (a cw ch fuel : Nat) (t t' : SliceTable σ) (hmax : 0 < cfg.maxSliceCount)
    (hWF : WF cfg.maxSliceCount t) (hnz : cfg.extraSliceCount ≠ 0 ∨ t.slices ≠ [])
    (h : allocLoop M cfg a cw ch (fuel + 1) 0 t = (none, t')) :
    (bucketGet t'.buckets a).isSome := by
  rw [allocLoop, if_pos hmax] at h
  obtain ⟨hWF1, hx1, hsome1⟩ := structuralStep_spec M cfg a 0 t hWF hnz
  split at h
  next t1 hstep =>
    rw [hstep] at hsome1
    simp only [Prod.mk.injEq] at h
    rw [← h.2]
    exact hsome1
  next t1 cand hstep =>
    rw [hstep] at hWF1 hx1 hsome1
    obtain ⟨hWF2, hx2, hbk2⟩ := tryAllocAt_spec M cw ch cand cfg.maxSliceCount t1 hWF1
    have hnz2 : cfg.extraSliceCount ≠ 0 ∨ (tryAllocAt M cw ch cand t1).2.slices ≠ [] :=
      nonempty_of_extends (TableExtends.trans hx1 hx2) hnz
    have hsome2 : (bucketGet (tryAllocAt M cw ch cand t1).2.buckets a).isSome := by
      rw [hbk2]; exact hsome1
    have hbucket : ∀ t2 : SliceTable σ, (bucketGet t2.buckets a).isSome →
        WF cfg.maxSliceCount t2 → (cfg.extraSliceCount ≠ 0 ∨ t2.slices ≠ []) →
        allocLoop M cfg a cw ch fuel (cand + 1) t2 = (none, t') →
        (bucketGet t'.buckets a).isSome := by
      intro t2 hs hw hn hrun
      obtain ⟨l, hl⟩ := Option.isSome_iff_exists.mp hs
      obtain ⟨_, hxr⟩ := allocLoop_spec M cfg a cw ch fuel (cand + 1) t2 hw hn
      obtain ⟨tl, htl⟩ := hxr.2.2.2 a l hl
      rw [hrun] at htl
      rw [htl]
      rfl
    split at h
    next t2 htry =>
      rw [htry] at hWF2 hnz2 hsome2
      exact hbucket t2 hsome2 hWF2 hnz2 h
    next r0 t2 htry =>
      rw [htry] at hWF2 hnz2 hsome2
      by_cases hre : r0.IsEmpty
      · rw [if_pos hre] at h
        exact hbucket t2 hsome2 hWF2 hnz2 h
      · rw [if_neg hre] at h
        exact absurd h (by simp)

/-! ### Alignment arithmetic -/

theorem doubleWhile_pos (target : Nat) :
    ∀ fuel a, 0 < a → 0 < doubleWhile target fuel a := by
  intro fuel
  induction fuel with
  | zero => exact fun a ha => ha
  | succ n ih =>
    intro a ha
    rw [doubleWhile]
    by_cases hc : a < target
    · rw [if_pos hc]; exact ih (a * 2) (by omega)
    · rw [if_neg hc]; exact ha

theorem resolveAlignment_pos (w h m : Nat) : 0 < resolveAlignment w h m := by
  unfold resolveAlignment
  by_cases hm : 0 < m
  · rw [if_pos hm]; exact doubleWhile_pos _ _ _ hm
  · rw [if_neg hm]; omega

theorem alignUp_div_mul (x a : Nat) (ha : 0 < a) : (alignUp x a / a) * a = alignUp x a := by
  unfold alignUp
  rw [Nat.mul_div_cancel _ ha]

/-! ### Unfolding equations for `atlasAllocate` -/

theorem atlasAllocate_zero {σ : Type} (M : RegionMgr σ) (cfg : AtlasConfig) (w h : Nat)
    (s : AtlasState σ) (hz : w = 0 ∨ h = 0) : atlasAllocate M cfg w h s = (none, s) := by
  unfold atlasAllocate
  rw [if_pos hz]

theorem atlasAllocate_oversize {σ : Type} (M : RegionMgr σ) (cfg : AtlasConfig) (w h : Nat)
    (s : AtlasState σ) (h1 : ¬(w = 0 ∨ h = 0)) (h2 : cfg.width < w ∨ cfg.height < h) :
    atlasAllocate M cfg w h s = (none, s) := by
  unfold atlasAllocate
  rw [if_neg h1, if_pos h2]

theorem atlasAllocate_main {σ : Type} (M : RegionMgr σ) (cfg : AtlasConfig) (w h : Nat)
    (s : AtlasState σ) (h1 : ¬(w = 0 ∨ h = 0)) (h2 : ¬(cfg.width < w ∨ cfg.height < h)) :
    atlasAllocate M cfg w h s =
      match allocLoop M cfg (resolveAlignment w h cfg.minAlignment)
          (alignUp w (resolveAlignment w h cfg.minAlignment) /
            resolveAlignment w h cfg.minAlignment)
          (alignUp h (resolveAlignment w h cfg.minAlignment) /
            resolveAlignment w h cfg.minAlignment)
          (cfg.maxSliceCount + 1) 0 s.table with
      | (none, t') => (none, { s with table := t' })
      | (some (r, sl), t') =>
        (some { region := r, slice := sl, alignment := resolveAlignment w h cfg.minAlignment,
                sizeW := w, sizeH := h },
         { s with
            table := t'
            allocatedArea := s.allocatedArea + (w : Int) * (h : Int)
            usedArea := s.usedArea + (alignUp w (resolveAlignment w h cfg.minAlignment) : Int) *
              (alignUp h (resolveAlignment w h cfg.minAlignment) : Int)
            allocationCount := s.allocationCount + 1 }) := by
  unfold atlasAllocate
  rw [if_neg h1, if_neg h2]

/-! ### Claim C1 -/

/-- Claim C1, counterexample: with `minAlignment = 0`, `Allocate(64, 64)`
resolves alignment `1`, not `64` as the claim states — the doubling loop
runs only when the configured minimum alignment is nonzero, while the
spec-worded rule (`resolveAlignmentSpec`, start from 1 when unset and
double) would give 64. -/
theorem resolveAlignment_zero_cex :
    resolveAlignment 64 64 0 = 1 ∧ resolveAlignmentSpec 64 64 0 = 64 ∧
    ¬ resolveAlignment 64 64 0 = 64 := by
  decide

/-- Claim C1 (amended): the alignment used by `Allocate` is a pure
function of `(width, height, minAlignment)`; when `minAlignment` is
nonzero it follows the spec's doubling rule (start from the minimum
alignment, double while smaller than `min(width, height)`), but when
`minAlignment` is unset (0) the alignment is `1` with no doubling; a
successful `Allocate` stores exactly this resolved alignment in the
returned handle. -/
theorem resolveAlignment_characterization :
    (∀ w h, resolveAlignment w h 0 = 1) ∧
    (∀ w h m, 0 < m → resolveAlignment w h m = resolveAlignmentSpec w h m) ∧
    (∀ {σ : Type} (M : RegionMgr σ) (cfg : AtlasConfig) (w h : Nat) (s : AtlasState σ)
        (hnd : Suballoc) (s' : AtlasState σ), atlasAllocate M cfg w h s = (some hnd, s') →
        hnd.alignment = resolveAlignment w h cfg.minAlignment) := by
  refine ⟨fun w h => by simp [resolveAlignment], ?_, ?_⟩
  · intro w h m hm
    unfold resolveAlignment resolveAlignmentSpec
    rw [if_pos hm, if_neg (Nat.pos_iff_ne_zero.mp hm)]
  · intro σ M cfg w h s hnd s' hsucc
    by_cases h1 : w = 0 ∨ h = 0
    · rw [atlasAllocate_zero M cfg w h s h1] at hsucc
      exact absurd hsucc (by simp)
    by_cases h2 : cfg.width < w ∨ cfg.height < h
    · rw [atlasAllocate_oversize M cfg w h s h1 h2] at hsucc
      exact absurd hsucc (by simp)
    rw [atlasAllocate_main M cfg w h s h1 h2] at hsucc
    split at hsucc
    next t' heq => exact absurd hsucc (by simp)
    next r sl t' heq =>
      simp only [Prod.mk.injEq, Option.some.injEq] at hsucc
      rw [← hsucc.1]

/-- Claim C1, witness: the characterization applied at concrete inputs
(minimum alignment 2 for the doubling rule; the `Allocate(64, 64)` run
on `state0` under `cfg0` for the stored handle alignment). -/
theorem resolveAlignment_characterization_witness :
    resolveAlignment 64 64 2 = resolveAlignmentSpec 64 64 2 ∧
    hnd0.alignment = resolveAlignment 64 64 cfg0.minAlignment :=
  ⟨resolveAlignment_characterization.2.1 64 64 2 (by decide),
   resolveAlignment_characterization.2.2 boolMgr cfg0 64 64 state0 hnd0 state1 (by decide)⟩

/-! ### Claim C5 -/

/-- Claim C5: a request with `w > m_Desc.Width` or `h > m_Desc.Height`
always fails — `Allocate` returns no handle and the state (counters
included) is returned untouched. -/
theorem allocate_oversize_no_mutation {σ : Type} (M : RegionMgr σ) (cfg : AtlasConfig)
    (w h : Nat) (s : AtlasState σ) (hov : cfg.width < w ∨ cfg.height < h) :
    atlasAllocate M cfg w h s = (none, s) := by
  by_cases h1 : w = 0 ∨ h = 0
  · exact atlasAllocate_zero M cfg w h s h1
  · exact atlasAllocate_oversize M cfg w h s h1 hov

/-- Claim C5, witness: a 300×10 request against the 256×256 atlas. -/
theorem allocate_oversize_no_mutation_witness :
    (cfg0.width < 300 ∨ cfg0.height < 10) ∧
    atlasAllocate boolMgr cfg0 300 10 state0 = (none, state0) :=
  ⟨by decide, allocate_oversize_no_mutation boolMgr cfg0 300 10 state0 (by decide)⟩

/-! ### Claim C2 -/

theorem atlasFree_eq {σ : Type} (M : RegionMgr σ) (slice alignment : Nat) (r : Region)
    (w h : Nat) (s : AtlasState σ) :
    atlasFree M slice alignment r w h s =
      match sliceAt s.table.slices slice with
      | none => .undefinedAccess
          { s with
              allocatedArea := s.allocatedArea - (w : Int) * (h : Int)
              usedArea := s.usedArea -
                ((r.width * alignment : Nat) : Int) * ((r.height * alignment : Nat) : Int)
              allocationCount := s.allocationCount - 1 }
      | some mgr => .ok
          { s with
              allocatedArea := s.allocatedArea - (w : Int) * (h : Int)
              usedArea := s.usedArea -
                ((r.width * alignment : Nat) : Int) * ((r.height * alignment : Nat) : Int)
              allocationCount := s.allocationCount - 1
              table := { s.table with
                slices := setAt s.table.slices slice (some (M.free mgr r)) } } := rfl

/-- Claim C2: a successful `Allocate(w, h)` adds `w*h` to
`m_AllocatedArea`, the aligned area to `m_UsedArea` and one to
`m_AllocationCount`, and the `Free` issued by destroying the returned
handle immediately afterwards subtracts exactly the same quantities, so
all three counters return to their pre-allocation values.  (Uses the
spec-modelled fact that the region manager returns regions of the
requested cell size.) -/
theorem allocate_free_roundtrip {σ : Type} (M : RegionMgr σ) (hM : M.SizeFaithful)
    (cfg : AtlasConfig) (w h : Nat) (s : AtlasState σ) (hnd : Suballoc) (s' : AtlasState σ)
    (hsucc : atlasAllocate M cfg w h s = (some hnd, s')) :
    s'.allocatedArea = s.allocatedArea + (w : Int) * (h : Int) ∧
    s'.usedArea = s.usedArea +
      (alignUp w hnd.alignment : Int) * (alignUp h hnd.alignment : Int) ∧
    s'.allocationCount = s.allocationCount + 1 ∧
    ∃ s'', atlasFree M hnd.slice hnd.alignment hnd.region hnd.sizeW hnd.sizeH s' = .ok s'' ∧
      s''.allocatedArea = s.allocatedArea ∧ s''.usedArea = s.usedArea ∧
      s''.allocationCount = s.allocationCount := by
  by_cases h1 : w = 0 ∨ h = 0
  · rw [atlasAllocate_zero M cfg w h s h1] at hsucc
    exact absurd hsucc (by simp)
  by_cases h2 : cfg.width < w ∨ cfg.height < h
  · rw [atlasAllocate_oversize M cfg w h s h1 h2] at hsucc
    exact absurd hsucc (by simp)
  rw [atlasAllocate_main M cfg w h s h1 h2] at hsucc
  set a := resolveAlignment w h cfg.minAlignment with ha
  have hapos : 0 < a := resolveAlignment_pos w h cfg.minAlignment
  split at hsucc
  next t' heq => exact absurd hsucc (by simp)
  next r sl t' heq =>
    simp only [Prod.mk.injEq, Option.some.injEq] at hsucc
    obtain ⟨hhnd, hs'⟩ := hsucc
    obtain ⟨hre, mgr, hmr, hsl⟩ :=
      allocLoop_success M cfg a (alignUp w a / a) (alignUp h a / a)
        (cfg.maxSliceCount + 1) 0 s.table r sl t' heq
    have hdims := hM mgr (alignUp w a / a) (alignUp h a / a) (by rw [hmr]; exact hre)
    rw [hmr] at hdims
    have hrw : r.width * a = alignUp w a := by
      rw [hdims.1]; exact alignUp_div_mul w a hapos
    have hrh : r.height * a = alignUp h a := by
      rw [hdims.2]; exact alignUp_div_mul h a hapos
    subst hhnd
    subst hs'
    dsimp only
    refine ⟨rfl, rfl, rfl, ?_⟩
    rw [atlasFree_eq]
    dsimp only
    rw [hsl]
    refine ⟨_, rfl, ?_, ?_, ?_⟩
    · dsimp only; ring
    · dsimp only
      rw [hrw, hrh]
      ring
    · dsimp only; ring

/-- Claim C2, witness: the `Allocate(64, 64)`/release round trip on
`state0` under `cfg0` with the concrete region manager. -/
theorem allocate_free_roundtrip_witness :
    state1.allocatedArea = state0.allocatedArea + (64 : Int) * (64 : Int) ∧
    state1.usedArea = state0.usedArea +
      (alignUp 64 hnd0.alignment : Int) * (alignUp 64 hnd0.alignment : Int) ∧
    state1.allocationCount = state0.allocationCount + 1 ∧
    ∃ s'', atlasFree boolMgr hnd0.slice hnd0.alignment hnd0.region hnd0.sizeW hnd0.sizeH
        state1 = .ok s'' ∧
      s''.allocatedArea = state0.allocatedArea ∧ s''.usedArea = state0.usedArea ∧
      s''.allocationCount = state0.allocationCount :=
  allocate_free_roundtrip boolMgr
    (by
      intro st w h hne
      cases st with
      | false => exact absurd hne (by simp [boolMgr, Region.IsEmpty])
      | true => exact ⟨rfl, rfl⟩)
    cfg0 64 64 state0 hnd0 state1 (by decide)

/-! ### Claims C3 and C6: surface growth -/

theorem getTexture_nogrow {σ : Type} (createTex : Nat → Option Nat) (s : AtlasState σ)
    (h : s.descArraySize = s.table.slices.length) :
    getTexture createTex s = (s.texture, s) := by
  unfold getTexture
  rw [if_pos h]

theorem getTexture_grow {σ : Type} (createTex : Nat → Option Nat) (s : AtlasState σ)
    (h : ¬ s.descArraySize = s.table.slices.length) :
    getTexture createTex s =
      (createTex s.table.slices.length,
       { s with
          descArraySize := s.table.slices.length
          version := s.version + 1
          texture := createTex s.table.slices.length }) := by
  unfold getTexture
  rw [if_neg h]

/-- Claim C6: a `GetTexture` call finding the slice collection larger
than the descriptor's layer count performs exactly one surface
replacement — the stored handle becomes the factory's result for the
new layer count — and bumps the version by exactly one; a call needing
no growth changes nothing and returns the stored handle. -/
theorem getTexture_growth_version {σ : Type} (createTex : Nat → Option Nat)
    (s : AtlasState σ) :
    (s.descArraySize < s.table.slices.length →
      (getTexture createTex s).2.version = s.version + 1 ∧
      (getTexture createTex s).2.texture = createTex s.table.slices.length ∧
      (getTexture createTex s).2.descArraySize = s.table.slices.length ∧
      (getTexture createTex s).1 = createTex s.table.slices.length) ∧
    (s.descArraySize = s.table.slices.length → getTexture createTex s = (s.texture, s)) := by
  constructor
  · intro hlt
    rw [getTexture_grow createTex s (by omega)]
    exact ⟨rfl, rfl, rfl, rfl⟩
  · exact getTexture_nogrow createTex s

/-- Claim C6, witness: the growth call on `stateGrow` (2 slices vs
array size 1) and the no-growth call on `state0`. -/
theorem getTexture_growth_version_witness :
    ((getTexture (fun n => some n) stateGrow).2.version = stateGrow.version + 1 ∧
     (getTexture (fun n => some n) stateGrow).2.texture =
       (fun n => some n) stateGrow.table.slices.length ∧
     (getTexture (fun n => some n) stateGrow).2.descArraySize =
       stateGrow.table.slices.length ∧
     (getTexture (fun n => some n) stateGrow).1 =
       (fun n => some n) stateGrow.table.slices.length) ∧
    getTexture (fun n => some n) state0 = (state0.texture, state0) :=
  ⟨(getTexture_growth_version (fun n => some n) stateGrow).1 (by decide),
   (getTexture_growth_version (fun n => some n) state0).2 (by decide)⟩

/-- Claim C3, counterexample: on `stateGrow` (growth required, the
factory returns no surface) the claim's "version not bumped, old
surface retained" fails — the version goes from 0 to 1 and the stored
handle `some 7` is replaced by `none`. -/
theorem getTexture_failed_growth_cex :
    stateGrow.version = 0 ∧ stateGrow.texture = some 7 ∧
    (getTexture (fun _ => none) stateGrow).2.version = 1 ∧
    (getTexture (fun _ => none) stateGrow).2.texture = none := by
  decide

/-- Claim C3 (amended): when growth is required but the surface factory
fails, the failure is visible to the caller (`GetTexture` returns no
surface), but release builds do mutate state on the way: the
descriptor's layer count is updated, the version counter is bumped by
one, and the stored surface handle is replaced by the factory's empty
result; only the debug-only `VERIFY_EXPR(pNewTexture)` assertion guards
this path. -/
theorem getTexture_failed_growth {σ : Type} (createTex : Nat → Option Nat) (s : AtlasState σ)
    (hgrow : s.descArraySize ≠ s.table.slices.length)
    (hfail : createTex s.table.slices.length = none) :
    getTexture createTex s =
      (none, { s with
                descArraySize := s.table.slices.length
                version := s.version + 1
                texture := none }) := by
  rw [getTexture_grow createTex s hgrow, hfail]

/-- Claim C3 (amended), witness: the failed growth on `stateGrow`. -/
theorem getTexture_failed_growth_witness :
    getTexture (fun _ => none) stateGrow =
      (none, { stateGrow with
                descArraySize := stateGrow.table.slices.length
                version := stateGrow.version + 1
                texture := none }) :=
  getTexture_failed_growth (fun _ => none) stateGrow (by decide) (by decide)

/-! ### Claim C9: handle getters -/

/-- Claim C9: a handle from a successful `Allocate(w, h)` reports
origin `(region.x * alignment, region.y * alignment)` in surface
pixels, size `(w, h)` (the requested, not the aligned size), its slice
index, and the scale-bias tuple `(w/W, h/H, originX/W, originY/H)`
(float divisions modelled exactly over `ℚ`). -/
theorem suballoc_getters {σ : Type} (M : RegionMgr σ) (cfg : AtlasConfig) (w h : Nat)
    (s : AtlasState σ) (hnd : Suballoc) (s' : AtlasState σ)
    (hsucc : atlasAllocate M cfg w h s = (some hnd, s')) :
    hnd.getSize = (w, h) ∧
    hnd.getOrigin = (hnd.region.x * hnd.alignment, hnd.region.y * hnd.alignment) ∧
    hnd.getSlice = hnd.slice ∧
    hnd.getUVScaleBias cfg.width cfg.height =
      ((w : ℚ) / (cfg.width : ℚ), (h : ℚ) / (cfg.height : ℚ),
       ((hnd.region.x * hnd.alignment : Nat) : ℚ) / (cfg.width : ℚ),
       ((hnd.region.y * hnd.alignment : Nat) : ℚ) / (cfg.height : ℚ)) := by
  by_cases h1 : w = 0 ∨ h = 0
  · rw [atlasAllocate_zero M cfg w h s h1] at hsucc
    exact absurd hsucc (by simp)
  by_cases h2 : cfg.width < w ∨ cfg.height < h
  · rw [atlasAllocate_oversize M cfg w h s h1 h2] at hsucc
    exact absurd hsucc (by simp)
  rw [atlasAllocate_main M cfg w h s h1 h2] at hsucc
  split at hsucc
  next t' heq => exact absurd hsucc (by simp)
  next r sl t' heq =>
    simp only [Prod.mk.injEq, Option.some.injEq] at hsucc
    obtain ⟨hhnd, _⟩ := hsucc
    subst hhnd
    exact ⟨rfl, rfl, rfl, rfl⟩

/-- Claim C9, witness: the getters of the `Allocate(64, 64)` handle on
`state0` under `cfg0`. -/
theorem suballoc_getters_witness :
    hnd0.getSize = (64, 64) ∧
    hnd0.getOrigin = (hnd0.region.x * hnd0.alignment, hnd0.region.y * hnd0.alignment) ∧
    hnd0.getSlice = hnd0.slice ∧
    hnd0.getUVScaleBias cfg0.width cfg0.height =
      ((64 : ℚ) / (cfg0.width : ℚ), (64 : ℚ) / (cfg0.height : ℚ),
       ((hnd0.region.x * hnd0.alignment : Nat) : ℚ) / (cfg0.width : ℚ),
       ((hnd0.region.y * hnd0.alignment : Nat) : ℚ) / (cfg0.height : ℚ)) :=
  suballoc_getters boolMgr cfg0 64 64 state0 hnd0 state1 (by decide)

/-! ### Claim C7: construction -/

/-- Claim C7, counterexample: a descriptor that passes every listed
validation check (2D type, known format, nonzero 256×256, minimum
alignment unset) still fails construction when a device is present and
the surface factory produces no texture — a failure case outside the
claim's "exactly when" list. -/
theorem atlasConstruct_cex :
    ctorValidationFails ⟨ResDim.tex2D, false, 256, 256, 1⟩ 0 = false ∧
    atlasConstruct Unit (fun _ => none) true ⟨ResDim.tex2D, false, 256, 256, 1⟩ 0 = none := by
  decide

/-- Claim C7 (amended): construction fails exactly when one of the
listed validation conditions holds (dimension type neither 2D nor
2D-array; format unset; zero width or height; nonzero minimum
alignment that is not a power of two or does not divide width/height)
— or when a device is present, the array size is positive, and the
surface factory fails to create the initial texture.  Otherwise
construction succeeds. -/
theorem atlasConstruct_fails_iff (σ : Type) (createTex : Nat → Option Nat)
    (devicePresent : Bool) (d : AtlasDesc) (minAlignment : Nat) :
    atlasConstruct σ createTex devicePresent d minAlignment = none ↔
      (ctorValidationFails d minAlignment = true ∨
       (devicePresent = true ∧ 0 < d.arraySize ∧ createTex d.arraySize = none)) := by
  unfold atlasConstruct
  by_cases hval : ctorValidationFails d minAlignment
  · simp [hval]
  · cases devicePresent with
    | false => simp [hval]
    | true =>
      by_cases harr : 0 < d.arraySize
      · cases hct : createTex d.arraySize with
        | none => simp [hval, harr, hct]
        | some tex => simp [hval, harr, hct]
      · simp [hval, harr]

/-! ### Claim C4: defensive validation -/

/-- Claim C4, counterexample: `Free` with slice index 0 against an
atlas whose slice collection is empty is *not* rejected in a release
build — the counters are decremented first (the allocation count drops
to −1) and then the out-of-range `m_Slices[0]` access is performed
(undefined behaviour), contradicting "rejected rather than performing
an unchecked access". -/
theorem free_unchecked_cex :
    atlasFree boolMgr 0 1 ⟨0, 0, 1, 1⟩ 5 5 state0 = .undefinedAccess
      { state0 with allocatedArea := -25, usedArea := -1, allocationCount := -1 } ∧
    freeDebugChecks state0 0 1 = false := by
  decide

/-- Claim C4 (amended): `Allocate` with a zero dimension is rejected
defensively even in release builds — no handle, no state change.  The
`Free`-side validation, however, exists only as debug-build assertions
(`freeDebugChecks`, false whenever the alignment has no registered
bucket): a release-build `Free` decrements the counters and performs
the `m_Slices[Slice]` access unchecked, so an out-of-range slice index
reaches undefined behaviour instead of being rejected. -/
theorem defensive_checks {σ : Type} :
    (∀ (M : RegionMgr σ) (cfg : AtlasConfig) (w h : Nat) (s : AtlasState σ),
      w = 0 ∨ h = 0 → atlasAllocate M cfg w h s = (none, s)) ∧
    (∀ (M : RegionMgr σ) (slice alignment : Nat) (r : Region) (w h : Nat) (s : AtlasState σ),
      s.table.slices.length ≤ slice →
      atlasFree M slice alignment r w h s = .undefinedAccess
        { s with
            allocatedArea := s.allocatedArea - (w : Int) * (h : Int)
            usedArea := s.usedArea -
              ((r.width * alignment : Nat) : Int) * ((r.height * alignment : Nat) : Int)
            allocationCount := s.allocationCount - 1 }) ∧
    (∀ (s : AtlasState σ) (slice alignment : Nat),
      bucketGet s.table.buckets alignment = none →
      freeDebugChecks s slice alignment = false) := by
  refine ⟨fun M cfg w h s hz => atlasAllocate_zero M cfg w h s hz, ?_, ?_⟩
  · intro M slice alignment r w h s hle
    rw [atlasFree_eq, sliceAt_oob _ _ hle]
  · intro s slice alignment hb
    unfold freeDebugChecks
    rw [hb]

/-- Claim C4 (amended), witness: a zero-width request, the unchecked
out-of-range free, and the debug check, all at concrete inputs. -/
theorem defensive_checks_witness :
    atlasAllocate boolMgr cfg0 0 64 state0 = (none, state0) ∧
    atlasFree boolMgr 3 1 ⟨0, 0, 1, 1⟩ 2 2 state0 = .undefinedAccess
      { state0 with
          allocatedArea := state0.allocatedArea - (2 : Int) * (2 : Int)
          usedArea := state0.usedArea - ((1 * 1 : Nat) : Int) * ((1 * 1 : Nat) : Int)
          allocationCount := state0.allocationCount - 1 } ∧
    freeDebugChecks state0 3 1 = false :=
  ⟨(defensive_checks (σ := Bool)).1 boolMgr cfg0 0 64 state0 (by decide),
   (defensive_checks (σ := Bool)).2.1 boolMgr 3 1 ⟨0, 0, 1, 1⟩ 2 2 state0 (by decide),
   (defensive_checks (σ := Bool)).2.2 state0 3 1 (by decide)⟩

/-! ### Claim C8: monotonic slice creation -/

theorem WF_empty (σ : Type) (maxCnt : Nat) : WF (σ := σ) maxCnt ⟨[], [], 0⟩ := by
  refine ⟨?_, ?_, ?_, ?_, Nat.zero_le _⟩
  · intro p hp
    exact absurd hp (List.not_mem_nil p)
  · intro p hp
    exact absurd hp (List.not_mem_nil p)
  · intro i hi
    exact absurd hi (Nat.not_lt_zero i)
  · intro i _
    cases i <;> rfl

theorem WF_of_dec {σ : Type} (maxCnt : Nat) (t : SliceTable σ)
    (h1 : ∀ p ∈ t.buckets, ∀ i ∈ p.2, i < t.nextUnused)
    (h2 : ∀ p ∈ t.buckets, ∀ q ∈ t.buckets, ∀ i, i ∈ p.2 → i ∈ q.2 → p.1 = q.1)
    (h3 : ∀ i, i < t.nextUnused → (sliceAt t.slices i).isSome)
    (h4 : ∀ i, i < t.slices.length → t.nextUnused ≤ i → sliceAt t.slices i = none)
    (h5 : t.nextUnused ≤ maxCnt) : WF maxCnt t := by
  refine ⟨h1, h2, h3, ?_, h5⟩
  intro i hi
  by_cases hlen : i < t.slices.length
  · exact h4 i hlen hi
  · exact sliceAt_oob _ _ (Nat.le_of_not_lt hlen)

theorem atlasAllocate_state {σ : Type} (M : RegionMgr σ) (cfg : AtlasConfig) (w h : Nat)
    (s : AtlasState σ) (hWF : WF cfg.maxSliceCount s.table)
    (hnz : cfg.extraSliceCount ≠ 0 ∨ s.table.slices ≠ []) :
    WF cfg.maxSliceCount (atlasAllocate M cfg w h s).2.table ∧
    TableExtends s.table (atlasAllocate M cfg w h s).2.table := by
  by_cases h1 : w = 0 ∨ h = 0
  · rw [atlasAllocate_zero M cfg w h s h1]
    exact ⟨hWF, TableExtends.rfl _⟩
  by_cases h2 : cfg.width < w ∨ cfg.height < h
  · rw [atlasAllocate_oversize M cfg w h s h1 h2]
    exact ⟨hWF, TableExtends.rfl _⟩
  rw [atlasAllocate_main M cfg w h s h1 h2]
  obtain ⟨hw, hx⟩ := allocLoop_spec M cfg (resolveAlignment w h cfg.minAlignment)
    (alignUp w (resolveAlignment w h cfg.minAlignment) / resolveAlignment w h cfg.minAlignment)
    (alignUp h (resolveAlignment w h cfg.minAlignment) / resolveAlignment w h cfg.minAlignment)
    (cfg.maxSliceCount + 1) 0 s.table hWF hnz
  split
  next t' heq =>
    rw [heq] at hw hx
    exact ⟨hw, hx⟩
  next r sl t' heq =>
    rw [heq] at hw hx
    exact ⟨hw, hx⟩

theorem runOp_spec {σ : Type} (M : RegionMgr σ) (cfg : AtlasConfig) (s : AtlasState σ)
    (op : AtlasOp) (hWF : WF cfg.maxSliceCount s.table)
    (hnz : cfg.extraSliceCount ≠ 0 ∨ s.table.slices ≠ []) :
    WF cfg.maxSliceCount (runOp M cfg s op).table ∧
    TableExtends s.table (runOp M cfg s op).table := by
  cases op with
  | alloc w h => exact atlasAllocate_state M cfg w h s hWF hnz
  | free slice alignment r w h =>
    cases hmgr : sliceAt s.table.slices slice with
    | none =>
      have hrw : runOp M cfg s (.free slice alignment r w h) = s := by
        show (match atlasFree M slice alignment r w h s with
              | .ok s' => s'
              | .undefinedAccess _ => s) = s
        rw [atlasFree_eq, hmgr]
      rw [hrw]
      exact ⟨hWF, TableExtends.rfl _⟩
    | some mgr =>
      have hrw : runOp M cfg s (.free slice alignment r w h) =
          { s with
              allocatedArea := s.allocatedArea - (w : Int) * (h : Int)
              usedArea := s.usedArea -
                ((r.width * alignment : Nat) : Int) * ((r.height * alignment : Nat) : Int)
              allocationCount := s.allocationCount - 1
              table := { s.table with
                slices := setAt s.table.slices slice (some (M.free mgr r)) } } := by
        show (match atlasFree M slice alignment r w h s with
              | .ok s' => s'
              | .undefinedAccess _ => s) = _
        rw [atlasFree_eq, hmgr]
      rw [hrw]
      exact setSlice_WF cfg.maxSliceCount s.table slice (M.free mgr r) hWF (by rw [hmgr]; rfl)

/-- Claim C8: across every sequence of `Allocate` operations and
handle-destruction `Free`s, slice creation is monotonic —
`m_NextUnusedSlice` never decreases, the slice vector never shrinks, a
created slice is never destroyed (its entry stays non-null at the same
index, so indices are never reused), and each alignment bucket only
ever grows by appending — and the well-formedness invariant, including
that each slice index is registered under exactly one alignment value
for its lifetime, is preserved. -/
theorem slice_monotonicity {σ : Type} (M : RegionMgr σ) (cfg : AtlasConfig)
    (ops : List AtlasOp) :
    ∀ (s : AtlasState σ), WF cfg.maxSliceCount s.table →
      (cfg.extraSliceCount ≠ 0 ∨ s.table.slices ≠ []) →
      WF cfg.maxSliceCount (runOps M cfg ops s).table ∧
      TableExtends s.table (runOps M cfg ops s).table := by
  induction ops with
  | nil => exact fun s hWF _ => ⟨hWF, TableExtends.rfl _⟩
  | cons op rest ih =>
    intro s hWF hnz
    obtain ⟨hW1, hx1⟩ := runOp_spec M cfg s op hWF hnz
    have hnz1 : cfg.extraSliceCount ≠ 0 ∨ (runOp M cfg s op).table.slices ≠ [] :=
      nonempty_of_extends hx1 hnz
    obtain ⟨hW2, hx2⟩ := ih (runOp M cfg s op) hW1 hnz1
    exact ⟨hW2, TableExtends.trans hx1 hx2⟩

/-- Claim C8, witness: an allocate/oversubscribe/free sequence on
`state0` under `cfg0`. -/
theorem slice_monotonicity_witness :
    WF cfg0.maxSliceCount
      (runOps boolMgr cfg0
        [AtlasOp.alloc 64 64, AtlasOp.alloc 200 50, AtlasOp.free 0 1 ⟨0, 0, 64, 64⟩ 64 64]
        state0).table ∧
    TableExtends state0.table
      (runOps boolMgr cfg0
        [AtlasOp.alloc 64 64, AtlasOp.alloc 200 50, AtlasOp.free 0 1 ⟨0, 0, 64, 64⟩ 64 64]
        state0).table :=
  slice_monotonicity boolMgr cfg0
    [AtlasOp.alloc 64 64, AtlasOp.alloc 200 50, AtlasOp.free 0 1 ⟨0, 0, 64, 64⟩ 64 64]
    state0 (WF_empty Bool 1) (Or.inl (by decide))

/-! ### Claim C10: frame effect of a failed allocation -/

/-- Claim C10: an in-range `Allocate` that fails with capacity
exhaustion leaves the three usage counters untouched, but the
structural state mutated during the failed search persists: the
alignment bucket for the resolved alignment exists afterwards,
`m_NextUnusedSlice` has not decreased, previously created slices
survive, and every slice created during the failed call (index below
the new `m_NextUnusedSlice`) remains constructed and registered. -/
theorem failed_allocate_frame {σ : Type} (M : RegionMgr σ) (cfg : AtlasConfig) (w h : Nat)
    (s s' : AtlasState σ) (hw : 0 < w) (hwle : w ≤ cfg.width) (hh : 0 < h)
    (hhle : h ≤ cfg.height) (hmax : 0 < cfg.maxSliceCount)
    (hWF : WF cfg.maxSliceCount s.table)
    (hnz : cfg.extraSliceCount ≠ 0 ∨ s.table.slices ≠ [])
    (hfail : atlasAllocate M cfg w h s = (none, s')) :
    s'.allocatedArea = s.allocatedArea ∧ s'.usedArea = s.usedArea ∧
    s'.allocationCount = s.allocationCount ∧
    (bucketGet s'.table.buckets (resolveAlignment w h cfg.minAlignment)).isSome ∧
    s.table.nextUnused ≤ s'.table.nextUnused ∧
    (∀ i mgr, sliceAt s.table.slices i = some mgr →
      ∃ mgr', sliceAt s'.table.slices i = some mgr') ∧
    (∀ i, i < s'.table.nextUnused → (sliceAt s'.table.slices i).isSome) := by
  have h1 : ¬(w = 0 ∨ h = 0) := by omega
  have h2 : ¬(cfg.width < w ∨ cfg.height < h) := by omega
  rw [atlasAllocate_main M cfg w h s h1 h2] at hfail
  split at hfail
  next t' heq =>
    simp only [Prod.mk.injEq] at hfail
    obtain ⟨-, hs'⟩ := hfail
    obtain ⟨hwf', hx'⟩ := allocLoop_spec M cfg (resolveAlignment w h cfg.minAlignment)
      (alignUp w (resolveAlignment w h cfg.minAlignment) / resolveAlignment w h cfg.minAlignment)
      (alignUp h (resolveAlignment w h cfg.minAlignment) / resolveAlignment w h cfg.minAlignment)
      (cfg.maxSliceCount + 1) 0 s.table hWF hnz
    rw [heq] at hwf' hx'
    have hbk := allocLoop_fail_bucket M cfg (resolveAlignment w h cfg.minAlignment)
      (alignUp w (resolveAlignment w h cfg.minAlignment) / resolveAlignment w h cfg.minAlignment)
      (alignUp h (resolveAlignment w h cfg.minAlignment) / resolveAlignment w h cfg.minAlignment)
      cfg.maxSliceCount s.table t' hmax hWF hnz heq
    subst hs'
    exact ⟨rfl, rfl, rfl, hbk, hx'.1, hx'.2.2.1, hwf'.allocIdx⟩
  next r sl t' heq =>
    exact absurd hfail (by simp)

/-- Claim C10, witness: the failing `Allocate(200, 50)` against
`state1` (slice 0 exhausted, slice cap 1): counters untouched, bucket
and slice 0 still present. -/
theorem failed_allocate_frame_witness :
    (0 < 200 ∧ 200 ≤ cfg0.width ∧ 0 < 50 ∧ 50 ≤ cfg0.height ∧ 0 < cfg0.maxSliceCount) ∧
    (state1.allocatedArea = state1.allocatedArea ∧ state1.usedArea = state1.usedArea ∧
     state1.allocationCount = state1.allocationCount ∧
     (bucketGet state1.table.buckets (resolveAlignment 200 50 cfg0.minAlignment)).isSome ∧
     state1.table.nextUnused ≤ state1.table.nextUnused ∧
     (∀ i mgr, sliceAt state1.table.slices i = some mgr →
       ∃ mgr', sliceAt state1.table.slices i = some mgr') ∧
     (∀ i, i < state1.table.nextUnused → (sliceAt state1.table.slices i).isSome)) :=
  ⟨⟨by decide, by decide, by decide, by decide, by decide⟩,
   failed_allocate_frame boolMgr cfg0 200 50 state1 state1 (by decide) (by decide) (by decide)
     (by decide) (by decide)
     (WF_of_dec cfg0.maxSliceCount state1.table (by decide) (by decide) (by decide) (by decide)
       (by decide))
     (Or.inl (by decide)) (by decide)⟩

end DynTexAtlas
